import Mathlib

/-!
Shallow embedding of the SSE broadcaster in `src/lib.rs`.

Model. Each subscriber channel (`tokio::sync::mpsc::channel(100)`) is a
bounded FIFO queue of frames; frames (`Bytes`) are modelled as `String`.
In the code every channel has exactly one durable write-end, the `Sender`
stored in `Broadcaster::clients` (the clone made for `try_send` is dropped
immediately), so a channel is identified with its registry slot.  The whole
system state is the list of all channels ever created, in creation order,
each carrying:
  - `queue`      : the pending frames (front = oldest);
  - `registered` : whether its `Sender` is still in `Broadcaster::clients`.
    When the sweeper drops an entry (`self.clients = ok_clients`) the
    evicted `Sender` is dropped, so in tokio semantics the channel becomes
    closed; `registered = false` therefore also means "all write-ends
    dropped".
The registry (`clients` vector) is the subsequence of registered entries;
a `filter` of a creation-ordered list preserves exactly the registry order,
since `new_client` pushes at the back and the sweep keeps relative order.
Receivers are held by live subscription handles throughout, so `try_send`
fails exactly on a full buffer.
-/

/-- Channel capacity: `channel(100)` in `new_client`. -/
def CAP : Nat := 100

/-- One subscriber channel: pending frames plus whether its write-end is
still held by the registry. -/
structure Chan where
  queue : List String
  registered : Bool
deriving DecidableEq, Repr

/-- Default channel used with `List.getD`: no pending frames, write-end
dropped. -/
def dChan : Chan := { queue := [], registered := false }

/-- A concrete channel whose buffer is full, used as a test fixture. -/
def fullChan : Chan := { queue := List.replicate CAP "x", registered := true }

/-- System state: every channel ever created, in creation order. -/
abbrev Broadcaster := List Chan

/-- The registry (`Broadcaster::clients`): the registered entries, in
registry order. -/
def registry (b : Broadcaster) : List Chan := b.filter (fun c => c.registered)

/-- Non-blocking enqueue, `Sender::try_send`: fails iff the buffer is full
(receivers are alive in this model). -/
def try_send (c : Chan) (m : String) : Option Chan :=
  if c.queue.length < CAP then some { c with queue := c.queue ++ [m] } else none

/-- The probe frame sent by `remove_stale_clients`. -/
def pingFrame : String := "event: internal_status\ndata: ping\n\n"

/-- The initial frame enqueued by `new_client`:
`["event: internal_status\ndata: connected\n\n"].concat()`. -/
def connectedFrame : String :=
  String.join ["event: internal_status\ndata: connected\n\n"]

/-- Frame construction in `send`:
`["event: ", event, "\n", "data: ", msg, "\n\n"].concat()`. -/
def frame (event msg : String) : String :=
  String.join ["event: ", event, "\n", "data: ", msg, "\n\n"]

/-- The channel produced by `new_client`: the connected frame enqueued,
write-end registered. Used as a concrete fixture. -/
def connChan : Chan := { queue := [connectedFrame], registered := true }

/-- `Broadcaster::remove_stale_clients`: try to enqueue the ping into each
registered channel; a channel that accepts keeps its `Sender` in the new
`clients` vector, a channel that rejects has its `Sender` dropped. -/
def Broadcaster.remove_stale_clients (b : Broadcaster) : Broadcaster :=
  b.map (fun c =>
    if c.registered then
      match try_send c pingFrame with
      | some c2 => c2
      | none => { c with registered := false }
    else c)

/-- `Broadcaster::send`: format one frame and `try_send` it to every
registered channel, ignoring failures (`unwrap_or(())`). -/
def Broadcaster.send (b : Broadcaster) (event msg : String) : Broadcaster :=
  b.map (fun c =>
    if c.registered then
      match try_send c (frame event msg) with
      | some c2 => c2
      | none => c
    else c)

/-- `Broadcaster::new_client`: fresh capacity-100 channel, enqueue the
connected frame (`.unwrap()`: `none` models the panic), push the sender.
Returns the new state and the index of the new channel. -/
def Broadcaster.new_client (b : Broadcaster) : Option (Broadcaster × Nat) :=
  match try_send { queue := [], registered := true } connectedFrame with
  | some c => some (b ++ [c], b.length)
  | none => none

/-- Result of polling the receiver (`Receiver::poll_next`). -/
inductive RecvPoll where
  | ready : Option String → RecvPoll
  | pending : RecvPoll
deriving DecidableEq, Repr

/-- `tokio::sync::mpsc::Receiver` poll: a pending frame is yielded first;
an empty queue yields `None` iff every write-end was dropped, else the
poll is pending. -/
def Chan.poll_recv (c : Chan) : RecvPoll × Chan :=
  match c.queue with
  | m :: rest => (RecvPoll.ready (some m), { c with queue := rest })
  | [] =>
    if c.registered then (RecvPoll.pending, c) else (RecvPoll.ready none, c)

deriving instance DecidableEq for Except

/-- Result of polling the `Client` stream; items are
`Result<Bytes, Error>`, modelled as `Except Unit String`. -/
inductive ClientPoll where
  | ready : Option (Except Unit String) → ClientPoll
  | pending : ClientPoll
deriving DecidableEq, Repr

/-- `impl Stream for Client`, `poll_next`: wrap each frame in `Ok`, pass
end-of-stream and pending through. -/
def Client.poll_next (c : Chan) : ClientPoll × Chan :=
  match c.poll_recv with
  | (RecvPoll.ready (some v), c2) => (ClientPoll.ready (some (Except.ok v)), c2)
  | (RecvPoll.ready none, c2) => (ClientPoll.ready none, c2)
  | (RecvPoll.pending, c2) => (ClientPoll.pending, c2)

/-- Broadcaster operations other than `new_client`. -/
inductive Op where
  | publish : String → String → Op
  | sweep : Op
deriving DecidableEq, Repr

/-- The frame an operation attempts to enqueue. -/
def Op.frameOf : Op → String
  | Op.publish e m => frame e m
  | Op.sweep => pingFrame

/-- One operation applied to the state. -/
def Broadcaster.step (b : Broadcaster) : Op → Broadcaster
  | Op.publish e m => b.send e m
  | Op.sweep => b.remove_stale_clients

/-- A sequence of operations applied in order. -/
def Broadcaster.run (b : Broadcaster) (ops : List Op) : Broadcaster :=
  ops.foldl Broadcaster.step b

/-- Frames observed by polling the stream up to `n` times, stopping at the
first poll that is not a ready frame. -/
def observe : Nat → Chan → List (Except Unit String)
  | 0, _ => []
  | Nat.succ n, c =>
    match Client.poll_next c with
    | (ClientPoll.ready (some v), c2) => v :: observe n c2
    | _ => []

/-- The channel state after polling the stream `n` times. -/
def afterPolls : Nat → Chan → Chan
  | 0, c => c
  | Nat.succ n, c => afterPolls n (Client.poll_next c).snd

/-! Helper lemmas. -/

theorem try_send_of_lt {c : Chan} {m : String} (h : c.queue.length < CAP) :
    try_send c m = some { c with queue := c.queue ++ [m] } := by
  simp [try_send, h]

theorem try_send_of_ge {c : Chan} {m : String} (h : CAP ≤ c.queue.length) :
    try_send c m = none := by
  simp [try_send, Nat.not_lt.mpr h]

theorem try_send_some {c c2 : Chan} {m : String} (h : try_send c m = some c2) :
    c2.registered = c.registered ∧ c2.queue = c.queue ++ [m]
      ∧ c.queue.length < CAP := by
  by_cases hl : c.queue.length < CAP
  · rw [try_send_of_lt hl] at h
    cases h
    exact ⟨rfl, rfl, hl⟩
  · rw [try_send_of_ge (Nat.not_lt.mp hl)] at h
    cases h

theorem getD_map_fixed {f : Chan → Chan} (hf : f dChan = dChan)
    (b : List Chan) (i : Nat) :
    (b.map f).getD i dChan = f (b.getD i dChan) := by
  cases h : b[i]? <;>
    simp [List.getD_eq_getElem?_getD, List.getElem?_map, h, hf]

theorem send_getD (b : Broadcaster) (e m : String) (i : Nat) :
    (b.send e m).getD i dChan =
      (if (b.getD i dChan).registered then
        match try_send (b.getD i dChan) (frame e m) with
        | some c2 => c2
        | none => b.getD i dChan
      else b.getD i dChan) := by
  exact getD_map_fixed rfl b i

theorem sweep_getD (b : Broadcaster) (i : Nat) :
    (b.remove_stale_clients).getD i dChan =
      (if (b.getD i dChan).registered then
        match try_send (b.getD i dChan) pingFrame with
        | some c2 => c2
        | none => { b.getD i dChan with registered := false }
      else b.getD i dChan) := by
  exact getD_map_fixed rfl b i

theorem sweep_getD_full (b : Broadcaster) (i : Nat) (q : List String)
    (hc : b.getD i dChan = { queue := q, registered := true })
    (hfull : CAP ≤ q.length) :
    (b.remove_stale_clients).getD i dChan
      = { queue := q, registered := false } := by
  rw [sweep_getD, hc,
    @try_send_of_ge { queue := q, registered := true } pingFrame hfull]
  rfl

theorem sweep_getD_room (b : Broadcaster) (i : Nat) (q : List String)
    (hc : b.getD i dChan = { queue := q, registered := true })
    (hroom : q.length < CAP) :
    (b.remove_stale_clients).getD i dChan
      = { queue := q ++ [pingFrame], registered := true } := by
  rw [sweep_getD, hc,
    @try_send_of_lt { queue := q, registered := true } pingFrame hroom]
  rfl

theorem send_getD_room (b : Broadcaster) (e m : String) (i : Nat)
    (q : List String)
    (hc : b.getD i dChan = { queue := q, registered := true })
    (hroom : q.length < CAP) :
    (b.send e m).getD i dChan
      = { queue := q ++ [frame e m], registered := true } := by
  rw [send_getD, hc,
    @try_send_of_lt { queue := q, registered := true } (frame e m) hroom]
  rfl

theorem length_send (b : Broadcaster) (e m : String) :
    (b.send e m).length = b.length := by
  simp [Broadcaster.send]

theorem length_sweep (b : Broadcaster) :
    (b.remove_stale_clients).length = b.length := by
  simp [Broadcaster.remove_stale_clients]

theorem registry_sweep (b : Broadcaster) :
    registry b.remove_stale_clients
      = (registry b).filterMap (fun c => try_send c pingFrame) := by
  induction b with
  | nil => rfl
  | cons c t ih =>
    by_cases hr : c.registered
    · cases hs : try_send c pingFrame with
      | some c2 =>
        have h2 := (try_send_some hs).1
        simp [Broadcaster.remove_stale_clients, registry, hr, hs, h2,
          hr ▸ h2] at ih ⊢
        exact ih
      | none =>
        simp [Broadcaster.remove_stale_clients, registry, hr, hs] at ih ⊢
        exact ih
    · simp [Broadcaster.remove_stale_clients, registry, hr] at ih ⊢
      exact ih

theorem run_cons (b : Broadcaster) (op : Op) (t : List Op) :
    b.run (op :: t) = (b.step op).run t := rfl

theorem step_getD_unregistered (b : Broadcaster) (op : Op) (i : Nat)
    (h : (b.getD i dChan).registered = false) :
    (b.step op).getD i dChan = b.getD i dChan := by
  cases op with
  | publish e m =>
    have hx := send_getD b e m i
    rw [h] at hx
    simpa [Broadcaster.step] using hx
  | sweep =>
    have hx := sweep_getD b i
    rw [h] at hx
    simpa [Broadcaster.step] using hx

theorem run_getD_unregistered (b : Broadcaster) (ops : List Op) (i : Nat)
    (h : (b.getD i dChan).registered = false) :
    (b.run ops).getD i dChan = b.getD i dChan := by
  induction ops generalizing b with
  | nil => rfl
  | cons op t ih =>
    have hs := step_getD_unregistered b op i h
    rw [run_cons, ih (b.step op) (by rw [hs]; exact h), hs]

theorem queue_le_after (c : Chan) (m : String) (h : c.queue.length ≤ CAP) :
    ((try_send c m).getD c).queue.length ≤ CAP := by
  by_cases hl : c.queue.length < CAP
  · simp [try_send_of_lt hl]
    omega
  · simp [try_send_of_ge (Nat.not_lt.mp hl), h]

theorem inv_step (b : Broadcaster) (op : Op)
    (h : ∀ c ∈ b, c.queue.length ≤ CAP) :
    ∀ c ∈ b.step op, c.queue.length ≤ CAP := by
  cases op with
  | publish e m =>
    intro c2 hc2
    simp only [Broadcaster.step, Broadcaster.send, List.mem_map] at hc2
    obtain ⟨c, hc, rfl⟩ := hc2
    by_cases hr : c.registered
    · cases hs : try_send c (frame e m) with
      | some cx =>
        obtain ⟨-, hq, hl⟩ := try_send_some hs
        simp [hr, hs, hq]
        omega
      | none => simpa [hr, hs] using h c hc
    · simpa [hr] using h c hc
  | sweep =>
    intro c2 hc2
    simp only [Broadcaster.step, Broadcaster.remove_stale_clients,
      List.mem_map] at hc2
    obtain ⟨c, hc, rfl⟩ := hc2
    by_cases hr : c.registered
    · cases hs : try_send c pingFrame with
      | some cx =>
        obtain ⟨-, hq, hl⟩ := try_send_some hs
        simp [hr, hs, hq]
        omega
      | none => simpa [hr, hs] using h c hc
    · simpa [hr] using h c hc

theorem inv_run (b : Broadcaster) (ops : List Op)
    (h : ∀ c ∈ b, c.queue.length ≤ CAP) :
    ∀ c ∈ b.run ops, c.queue.length ≤ CAP := by
  induction ops generalizing b with
  | nil => exact h
  | cons op t ih => exact run_cons b op t ▸ ih (b.step op) (inv_step b op h)

theorem observe_queue (l : List String) (r : Bool) :
    observe l.length { queue := l, registered := r } = l.map Except.ok := by
  induction l with
  | nil => rfl
  | cons m t ih =>
    simpa [observe, Client.poll_next, Chan.poll_recv] using ih

theorem afterPolls_drain (l : List String) (r : Bool) :
    afterPolls l.length { queue := l, registered := r }
      = { queue := [], registered := r } := by
  induction l with
  | nil => rfl
  | cons a t ih =>
    simpa [afterPolls, Client.poll_next, Chan.poll_recv] using ih

theorem step_single (q : List String) (op : Op) (hq : q.length < CAP) :
    Broadcaster.step [{ queue := q, registered := true }] op
      = [{ queue := q ++ [op.frameOf], registered := true }] := by
  cases op with
  | publish e m =>
    simp [Broadcaster.step, Broadcaster.send, Op.frameOf,
      @try_send_of_lt { queue := q, registered := true } (frame e m) hq]
  | sweep =>
    simp [Broadcaster.step, Broadcaster.remove_stale_clients, Op.frameOf,
      @try_send_of_lt { queue := q, registered := true } pingFrame hq]

theorem run_single (q : List String) (ops : List Op)
    (h : q.length + ops.length ≤ CAP) :
    Broadcaster.run [{ queue := q, registered := true }] ops
      = [{ queue := q ++ ops.map Op.frameOf, registered := true }] := by
  induction ops generalizing q with
  | nil => simp [Broadcaster.run]
  | cons op t ih =>
    have hq : q.length < CAP := by
      simp only [List.length_cons] at h
      omega
    rw [run_cons, step_single q op hq,
      ih (q ++ [op.frameOf]) (by simp only [List.length_append,
        List.length_cons, List.length_nil] at h ⊢; omega)]
    simp

theorem registry_send (b : Broadcaster) (e m : String) :
    registry (b.send e m)
      = (registry b).map (fun c => (try_send c (frame e m)).getD c) := by
  induction b with
  | nil => rfl
  | cons c t ih =>
    by_cases hr : c.registered
    · cases hs : try_send c (frame e m) with
      | some c2 =>
        have h2 := (try_send_some hs).1
        simp [Broadcaster.send, registry, hr, hs, h2, hr ▸ h2] at ih ⊢
        exact ih
      | none =>
        simp [Broadcaster.send, registry, hr, hs] at ih ⊢
        exact ih
    · simp [Broadcaster.send, registry, hr] at ih ⊢
      exact ih

theorem new_client_eq (b : Broadcaster) :
    b.new_client
      = some (b ++ [{ queue := [connectedFrame], registered := true }],
          b.length) := by
  simp [Broadcaster.new_client, try_send, CAP]

theorem getD_append_length (b : List Chan) (c : Chan) :
    (b ++ [c]).getD b.length dChan = c := by
  simp [List.getD_eq_getElem?_getD,
    List.getElem?_append_right (Nat.le_refl b.length)]

theorem frame_eq (e m : String) :
    frame e m = "event: " ++ e ++ "\ndata: " ++ m ++ "\n\n" := by
  simp [frame, String.join, String.append_assoc]

/-! Claim theorems. -/

/-- C1: one execution of the sweep attempts a non-blocking enqueue of the
probe frame `event: internal_status\ndata: ping\n\n` into each entry's
channel, and afterwards the registry equals exactly the subset of entries
whose probe enqueue succeeded, in original relative order; hence every
remaining entry's queue ends with the most recent probe. -/
theorem sweep_keeps_exactly_accepted (b : Broadcaster) :
    registry b.remove_stale_clients
        = (registry b).filterMap (fun c => try_send c pingFrame)
      ∧ ∀ c2 ∈ registry b.remove_stale_clients,
          c2.queue.getLast? = some pingFrame := by
  refine ⟨registry_sweep b, ?_⟩
  intro c2 hc2
  rw [registry_sweep b] at hc2
  simp only [List.mem_filterMap] at hc2
  obtain ⟨c, hc, hs⟩ := hc2
  obtain ⟨-, hq, -⟩ := try_send_some hs
  rw [hq]
  simp

theorem sweep_keeps_exactly_accepted_witness :
    ({ queue := [pingFrame], registered := true } : Chan).queue.getLast?
      = some pingFrame :=
  (sweep_keeps_exactly_accepted [{ queue := [], registered := true }]).2
    { queue := [pingFrame], registered := true } (by decide)

/-- C2: the first frame produced by the subscription handle returned by
`new_client` is exactly the connected frame
`event: internal_status\ndata: connected\n\n`, already enqueued when the
call returns. -/
theorem new_client_first_frame (b b2 : Broadcaster) (i : Nat)
    (h : b.new_client = some (b2, i)) :
    (b2.getD i dChan).queue = [connectedFrame]
      ∧ (Client.poll_next (b2.getD i dChan)).fst
          = ClientPoll.ready (some (Except.ok connectedFrame)) := by
  rw [new_client_eq] at h
  cases h
  rw [getD_append_length]
  exact ⟨rfl, rfl⟩

theorem new_client_first_frame_witness :
    (([connChan] : Broadcaster).getD 0 dChan).queue = [connectedFrame]
      ∧ (Client.poll_next (([connChan] : Broadcaster).getD 0 dChan)).fst
          = ClientPoll.ready (some (Except.ok connectedFrame)) :=
  new_client_first_frame [] [connChan] 0 (new_client_eq [])

/-- C3: `send` constructs exactly one frame whose bytes are
`event: ` ++ e ++ `\ndata: ` ++ m ++ `\n\n`, with no validation or escaping
of `e` or `m`, and try-enqueues that same frame into each registered
channel in registry order. -/
theorem send_frame_and_fanout (e m : String) (b : Broadcaster) :
    frame e m = "event: " ++ e ++ "\ndata: " ++ m ++ "\n\n"
      ∧ registry (b.send e m)
          = (registry b).map (fun c => (try_send c (frame e m)).getD c) :=
  ⟨frame_eq e m, registry_send b e m⟩

/-- C4: a rejected enqueue during `send` just drops the frame for that
subscriber: `send` is a total function (no error), is a no-op on the empty
registry, never changes the number of entries or which entries are
registered, and leaves a full subscriber's channel unchanged. -/
theorem send_drops_on_full (e m : String) (b : Broadcaster) (i : Nat) :
    Broadcaster.send [] e m = []
      ∧ (b.send e m).length = b.length
      ∧ ((b.send e m).getD i dChan).registered
          = (b.getD i dChan).registered
      ∧ (CAP ≤ (b.getD i dChan).queue.length →
          (b.send e m).getD i dChan = b.getD i dChan) := by
  refine ⟨rfl, length_send b e m, ?_, ?_⟩
  · rw [send_getD]
    by_cases hr : (b.getD i dChan).registered = true
    · rw [if_pos hr]
      cases hs : try_send (b.getD i dChan) (frame e m) with
      | some c2 => exact (try_send_some hs).1
      | none => rfl
    · rw [if_neg hr]
  · intro hfull
    rw [send_getD, try_send_of_ge hfull]
    simp

theorem send_drops_on_full_witness :
    (Broadcaster.send [fullChan] "a" "b").getD 0 dChan
      = ([fullChan] : Broadcaster).getD 0 dChan :=
  (send_drops_on_full "a" "b" [fullChan] 0).2.2.2
    (by simp [fullChan, CAP])

/-- C5: a subscriber whose queue is full at sweep time is evicted by that
sweep and no later publish or sweep touches its channel again; a
subscriber with room accepts the ping probe, stays registered, and
receives subsequent broadcasts while it has room. -/
theorem sweep_evicts_full_keeps_live (b : Broadcaster) (i : Nat)
    (hreg : (b.getD i dChan).registered = true) :
    (CAP ≤ (b.getD i dChan).queue.length →
        ((b.remove_stale_clients).getD i dChan).registered = false
          ∧ ∀ ops : List Op,
              ((b.remove_stale_clients).run ops).getD i dChan
                = (b.remove_stale_clients).getD i dChan)
      ∧ ((b.getD i dChan).queue.length < CAP →
          ((b.remove_stale_clients).getD i dChan).registered = true
            ∧ ((b.remove_stale_clients).getD i dChan).queue
                = (b.getD i dChan).queue ++ [pingFrame]
            ∧ ∀ e m : String, (b.getD i dChan).queue.length + 1 < CAP →
                ((b.remove_stale_clients.send e m).getD i dChan).queue
                  = (b.getD i dChan).queue ++ [pingFrame, frame e m]) := by
  have hc : b.getD i dChan
      = { queue := (b.getD i dChan).queue, registered := true } := by
    rw [← hreg]
  constructor
  · intro hfull
    have hev := sweep_getD_full b i _ hc hfull
    exact ⟨by rw [hev],
      fun ops => run_getD_unregistered _ ops i (by rw [hev])⟩
  · intro hroom
    have hsw := sweep_getD_room b i _ hc hroom
    refine ⟨by rw [hsw], by rw [hsw], ?_⟩
    intro e m hroom2
    have hs2 := send_getD_room b.remove_stale_clients e m i _ hsw
      (by simp only [List.length_append, List.length_cons,
        List.length_nil]; omega)
    rw [hs2]
    simp

theorem sweep_evicts_full_keeps_live_witness :
    ((Broadcaster.remove_stale_clients [fullChan]).getD 0 dChan).registered
      = false :=
  ((sweep_evicts_full_keeps_live [fullChan] 0 (by decide)).1
    (by decide)).1

/-- C6: the channel capacity is exactly 100, every enqueue is a
non-blocking attempt (`try_send` is a total function), and no subscriber
queue ever exceeds 100 pending frames: the bound is preserved by
`new_client` and by every sequence of publish and sweep operations. -/
theorem capacity_bound_invariant (b : Broadcaster) (ops : List Op)
    (h : ∀ c ∈ b, c.queue.length ≤ CAP) :
    CAP = 100
      ∧ (∀ c ∈ b.run ops, c.queue.length ≤ CAP)
      ∧ ∀ b2 i, b.new_client = some (b2, i) →
          ∀ c ∈ b2, c.queue.length ≤ CAP := by
  refine ⟨rfl, inv_run b ops h, ?_⟩
  intro b2 i hnc c hc
  rw [new_client_eq] at hnc
  cases hnc
  rcases List.mem_append.mp hc with h1 | h1
  · exact h c h1
  · rw [List.mem_singleton.mp h1]
    simp [CAP]

theorem capacity_bound_invariant_witness : CAP = 100 :=
  (capacity_bound_invariant [] [] (by simp)).1

/-- C7: for a single subscriber whose queue never fills, the frames
observed through its subscription handle are exactly the frames
successfully enqueued for it, in enqueue order, with no reordering, loss,
or duplication. -/
theorem single_subscriber_order (q : List String) (ops : List Op)
    (h : q.length + ops.length ≤ CAP) :
    Broadcaster.run [{ queue := q, registered := true }] ops
        = [{ queue := q ++ ops.map Op.frameOf, registered := true }]
      ∧ observe (q.length + ops.length)
            { queue := q ++ ops.map Op.frameOf, registered := true }
          = (q ++ ops.map Op.frameOf).map Except.ok := by
  refine ⟨run_single q ops h, ?_⟩
  have hl : (q ++ ops.map Op.frameOf).length = q.length + ops.length := by
    simp
  rw [← hl]
  exact observe_queue _ _

theorem single_subscriber_order_witness :
    Broadcaster.run [connChan] [Op.publish "a" "b", Op.sweep]
      = [{ queue := [connectedFrame] ++ ([Op.publish "a" "b", Op.sweep]).map Op.frameOf, registered := true }] :=
  (single_subscriber_order [connectedFrame]
    [Op.publish "a" "b", Op.sweep] (by decide)).1

/-- C8: the enqueue of the initial connected frame into the fresh, empty,
capacity-100 channel always succeeds, so the `unwrap` failure branch of
`new_client` is unreachable and `new_client` never fails. -/
theorem new_client_never_fails (b : Broadcaster) :
    try_send { queue := [], registered := true } connectedFrame
        = some { queue := [connectedFrame], registered := true }
      ∧ b.new_client
          = some (b ++ [{ queue := [connectedFrame], registered := true }],
              b.length) :=
  ⟨by simp [try_send, CAP], new_client_eq b⟩

/-- C9 as stated is false: the sweep drops the write-end of each rejected
entry when it replaces the clients vector, which closes that channel, so
an evicted subscriber's stream does terminate once its queue is drained.
Before the sweep the same subscriber's drained channel polls as pending;
after eviction it polls as end-of-stream. -/
theorem sweep_closes_evicted_stream :
    ((Broadcaster.remove_stale_clients [fullChan]).getD 0 dChan).registered
        = false
      ∧ (Client.poll_next (afterPolls CAP
            ((Broadcaster.remove_stale_clients [fullChan]).getD 0
              dChan))).fst
          = ClientPoll.ready none
      ∧ (Client.poll_next (afterPolls CAP fullChan)).fst
          = ClientPoll.pending := by
  have h1 : (Broadcaster.remove_stale_clients [fullChan]).getD 0 dChan
      = { queue := List.replicate CAP "x", registered := false } :=
    sweep_getD_full [fullChan] 0 (List.replicate CAP "x") rfl
      (by rw [List.length_replicate])
  have hdrain : ∀ r : Bool,
      afterPolls CAP { queue := List.replicate CAP "x", registered := r }
        = { queue := [], registered := r } := by
    intro r
    have h := afterPolls_drain (List.replicate CAP "x") r
    rwa [List.length_replicate] at h
  refine ⟨by rw [h1], ?_, ?_⟩
  · rw [h1, hdrain false]
    rfl
  · rw [show (fullChan : Chan)
        = { queue := List.replicate CAP "x", registered := true } from rfl,
      hdrain true]
    rfl

/-- C9 amended: the stream signals end-of-stream exactly when its queue is
drained and every write-end is dropped; the sweep drops the write-end of
each entry whose probe was rejected (leaving its queued frames intact), so
eviction closes that subscriber's channel and its stream terminates after
draining — not only at broadcaster teardown. -/
theorem stream_ends_iff_closed (c : Chan) (b : Broadcaster) (i : Nat)
    (h1 : (b.getD i dChan).registered = true)
    (h2 : CAP ≤ (b.getD i dChan).queue.length) :
    ((Client.poll_next c).fst = ClientPoll.ready none
        ↔ c.queue = [] ∧ c.registered = false)
      ∧ ((b.remove_stale_clients).getD i dChan).registered = false
      ∧ ((b.remove_stale_clients).getD i dChan).queue
          = (b.getD i dChan).queue := by
  have hsw : (b.remove_stale_clients).getD i dChan
      = { b.getD i dChan with registered := false } := by
    rw [sweep_getD, h1, try_send_of_ge h2]
    simp
  refine ⟨?_, by rw [hsw], by rw [hsw]⟩
  obtain ⟨q, r⟩ := c
  cases q with
  | nil =>
    cases r <;> simp [Client.poll_next, Chan.poll_recv]
  | cons a t =>
    simp [Client.poll_next, Chan.poll_recv]

theorem stream_ends_iff_closed_witness :
    ((Broadcaster.remove_stale_clients [fullChan]).getD 0 dChan).queue
      = (([fullChan] : Broadcaster).getD 0 dChan).queue :=
  (stream_ends_iff_closed dChan [fullChan] 0 (by decide) (by decide)).2.2

/-- C10: although the stream's item type is a result, `poll_next` never
yields an error item: every frame is passed through byte-for-byte wrapped
in `Ok`, and the only other outcomes are end-of-stream and pending. -/
theorem poll_next_never_err (c : Chan) :
    (Client.poll_next c).fst = ClientPoll.pending
      ∨ (Client.poll_next c).fst = ClientPoll.ready none
      ∨ ∃ v, (Client.poll_next c).fst
            = ClientPoll.ready (some (Except.ok v))
          ∧ c.queue.head? = some v := by
  obtain ⟨q, r⟩ := c
  cases q with
  | nil =>
    cases r with
    | false =>
      right; left
      simp [Client.poll_next, Chan.poll_recv]
    | true =>
      left
      simp [Client.poll_next, Chan.poll_recv]
  | cons a t =>
    right; right
    exact ⟨a, by simp [Client.poll_next, Chan.poll_recv], rfl⟩
